import Mathlib

/-!
A shallow embedding of the ContentChef Go SDK client — `contentchef/client.go`
together with its channel, options and serialization code — and theorems
checking the specification's claims about it.

Go strings are modelled as Lean `String`s (the inputs exercised are ASCII, for
which byte-wise and character-wise processing agree); machine integers as
`Nat`/`Int`; fallible operations as `Option`/`Except`.  Behaviour of standard
library collaborators (`net/url`, `encoding/json`, `github.com/google/go-querystring`)
is embedded to the extent the claims exercise it, with each simplification
noted at the definition it concerns.
-/

namespace ContentChef

/-- Go `unicode.IsSpace` on the Latin-1 range, the character class used by
`strings.TrimSpace`: space, tab, newline, vertical tab, form feed, carriage
return, NEL (U+0085) and NBSP (U+00A0). -/
def isGoSpace (c : Char) : Bool :=
  c = ' ' || c = '\t' || c = '\n' || c = '\x0b' || c = '\x0c' || c = '\r' ||
    c = '\u0085' || c = ' '

/-- Go `strings.TrimSpace`: drop leading and trailing white space. -/
def goTrimSpace (s : String) : String :=
  String.mk ((s.toList.dropWhile isGoSpace).reverse.dropWhile isGoSpace).reverse

/-- The `SortingField` from the source: one entry of a sort specification. -/
structure SortingField where
  FieldName : String
  Ascending : Bool
deriving DecidableEq

/-- The `Sorting` from the source: an ordered sort specification. -/
abbrev Sorting := List SortingField

/-- The `serializeSorting` from the source.  The Go code preallocates a slice with
one (initially empty) string per entry, `continue`s past entries whose
`FieldName` has length zero (leaving their slot as the empty string), writes
`sign ++ TrimSpace(FieldName)` into every other slot, and joins all slots with
commas.  This is exactly `intercalate "," ∘ map` of the per-entry slot value. -/
def serializeSorting (s : Sorting) : String :=
  String.intercalate "," (s.map (fun field =>
    if field.FieldName.length = 0 then ""
    else (if field.Ascending then "+" else "-") ++ goTrimSpace field.FieldName))

/-- JSON values, the target of Go's `encoding/json` parsing.  Number literals
are kept verbatim (`num`): none of the claims depends on numeric value
conversion.  Object fields keep their textual order. -/
inductive Json where
  | null
  | bool (b : Bool)
  | num (lit : String)
  | str (s : String)
  | arr (elems : List Json)
  | obj (fields : List (String × Json))

/-- JSON insignificant white space (RFC 8259): space, tab, newline, return. -/
def isJsonWs (c : Char) : Bool :=
  c = ' ' || c = '\t' || c = '\n' || c = '\r'

/-- Drop leading JSON white space. -/
def skipWs : List Char → List Char
  | [] => []
  | c :: rest => if isJsonWs c then skipWs rest else c :: rest

/-- Value of a hexadecimal digit. -/
def hexVal (c : Char) : Option Nat :=
  if '0' ≤ c ∧ c ≤ '9' then some (c.toNat - '0'.toNat)
  else if 'a' ≤ c ∧ c ≤ 'f' then some (c.toNat - 'a'.toNat + 10)
  else if 'A' ≤ c ∧ c ≤ 'F' then some (c.toNat - 'A'.toNat + 10)
  else none

/-- Decode a `\uXXXX` code point as Go's decoder does for a lone escape;
surrogate halves decode to U+FFFD (pair combination is not modelled — no
claim exercises it). -/
def uEscapeChar (n : Nat) : Char :=
  if 0xD800 ≤ n ∧ n < 0xE000 then '�' else Char.ofNat n

/-- Parse the remainder of a JSON string after the opening quote, with the
standard escapes; raw control characters are rejected as in Go. -/
def parseJsonStringAux : List Char → List Char → Option (String × List Char)
  | _, [] => none
  | acc, '"' :: rest => some (String.mk acc.reverse, rest)
  | acc, '\\' :: esc =>
    match esc with
    | 'u' :: a :: b :: c :: d :: rest =>
      match hexVal a, hexVal b, hexVal c, hexVal d with
      | some ha, some hb, some hc, some hd =>
        parseJsonStringAux (uEscapeChar (((ha * 16 + hb) * 16 + hc) * 16 + hd) :: acc) rest
      | _, _, _, _ => none
    | '"' :: rest => parseJsonStringAux ('"' :: acc) rest
    | '\\' :: rest => parseJsonStringAux ('\\' :: acc) rest
    | '/' :: rest => parseJsonStringAux ('/' :: acc) rest
    | 'b' :: rest => parseJsonStringAux ('\x08' :: acc) rest
    | 'f' :: rest => parseJsonStringAux ('\x0c' :: acc) rest
    | 'n' :: rest => parseJsonStringAux ('\n' :: acc) rest
    | 'r' :: rest => parseJsonStringAux ('\r' :: acc) rest
    | 't' :: rest => parseJsonStringAux ('\t' :: acc) rest
    | _ => none
  | acc, c :: rest =>
    if c.toNat < 0x20 then none else parseJsonStringAux (c :: acc) rest

/-- Longest digit run at the head of the list. -/
def takeDigits : List Char → (List Char × List Char)
  | [] => ([], [])
  | c :: rest =>
    if c.isDigit then
      let (ds, r) := takeDigits rest
      (c :: ds, r)
    else ([], c :: rest)

/-- Parse the optional fraction and exponent following the integer part of a
JSON number, accumulating the literal. -/
def parseJsonNumberTail (lit : List Char) (l : List Char) : Option (String × List Char) :=
  let (lit1, l1) :=
    match l with
    | '.' :: c :: rest =>
      if c.isDigit then
        let (ds, r) := takeDigits rest
        (lit ++ '.' :: c :: ds, r)
      else (lit, l)
    | _ => (lit, l)
  match l1 with
  | e :: rest =>
    if e = 'e' ∨ e = 'E' then
      match rest with
      | s :: c :: r =>
        if (s = '+' ∨ s = '-') ∧ c.isDigit then
          let (ds, r2) := takeDigits r
          some (String.mk (lit1 ++ e :: s :: c :: ds), r2)
        else if s.isDigit then
          let (ds, r2) := takeDigits (c :: r)
          some (String.mk (lit1 ++ [e, s] ++ ds), r2)
        else none
      | [s] =>
        if s.isDigit then some (String.mk (lit1 ++ [e, s]), []) else none
      | [] => none
    else some (String.mk lit1, l1)
  | [] => some (String.mk lit1, [])

/-- Parse a JSON number literal (RFC 8259 grammar, as Go enforces it). -/
def parseJsonNumber (l : List Char) : Option (String × List Char) :=
  let (sign, l1) := match l with | '-' :: r => (['-'], r) | _ => (([] : List Char), l)
  match l1 with
  | '0' :: r => parseJsonNumberTail (sign ++ ['0']) r
  | c :: r =>
    if c.isDigit then
      let (ds, r2) := takeDigits r
      parseJsonNumberTail (sign ++ c :: ds) r2
    else none
  | [] => none

mutual

/-- Parse one JSON value, fuel-bounded (the fuel only bounds recursion depth;
`jsonUnmarshal` supplies more than enough). -/
def parseJsonValue : Nat → List Char → Option (Json × List Char)
  | 0, _ => none
  | fuel + 1, l =>
    match skipWs l with
    | 'n' :: 'u' :: 'l' :: 'l' :: rest => some (.null, rest)
    | 't' :: 'r' :: 'u' :: 'e' :: rest => some (.bool true, rest)
    | 'f' :: 'a' :: 'l' :: 's' :: 'e' :: rest => some (.bool false, rest)
    | '"' :: rest => (parseJsonStringAux [] rest).map (fun p => (.str p.1, p.2))
    | '[' :: rest =>
      match skipWs rest with
      | ']' :: r => some (.arr [], r)
      | l2 => (parseJsonElems fuel l2).map (fun p => (.arr p.1, p.2))
    | '\x7b' :: rest =>
      match skipWs rest with
      | '\x7d' :: r => some (.obj [], r)
      | l2 => (parseJsonFields fuel l2).map (fun p => (.obj p.1, p.2))
    | l2 => (parseJsonNumber l2).map (fun p => (.num p.1, p.2))

/-- Parse the elements of a non-empty JSON array up to `]`. -/
def parseJsonElems : Nat → List Char → Option (List Json × List Char)
  | 0, _ => none
  | fuel + 1, l => do
    let (v, r) ← parseJsonValue fuel l
    match skipWs r with
    | ',' :: r2 => (parseJsonElems fuel r2).map (fun p => (v :: p.1, p.2))
    | ']' :: r2 => some ([v], r2)
    | _ => none

/-- Parse the fields of a non-empty JSON object up to the closing brace. -/
def parseJsonFields : Nat → List Char → Option (List (String × Json) × List Char)
  | 0, _ => none
  | fuel + 1, l =>
    match skipWs l with
    | '"' :: r =>
      match parseJsonStringAux [] r with
      | Option.none => none
      | some (k, r1) =>
        match skipWs r1 with
        | ':' :: r2 => do
          let (v, r3) ← parseJsonValue fuel r2
          match skipWs r3 with
          | ',' :: r4 => (parseJsonFields fuel r4).map (fun p => ((k, v) :: p.1, p.2))
          | '\x7d' :: r4 => some ([(k, v)], r4)
          | _ => none
        | _ => none
    | _ => none

end

/-- Go `json.Unmarshal`'s syntactic acceptance: exactly one JSON value
followed by nothing but white space. -/
def jsonUnmarshal (s : String) : Option Json :=
  match parseJsonValue (2 * s.length + 2) s.toList with
  | some (v, rest) => if skipWs rest = [] then some v else none
  | Option.none => none

/-- ASCII lower-casing, for Go's case-insensitive JSON field matching
(`strings.EqualFold`; the field names involved are ASCII). -/
def toLowerAscii (c : Char) : Char :=
  if 'A' ≤ c ∧ c ≤ 'Z' then Char.ofNat (c.toNat + 32) else c

/-- Case-insensitive (ASCII) string equality, Go `strings.EqualFold` on the
ASCII inputs that arise here. -/
def eqFold (a b : String) : Bool :=
  a.toList.map toLowerAscii = b.toList.map toLowerAscii

/-- The field-by-field behaviour of `json.Unmarshal(data, &errorResponse)` on
an object body.  The struct has fields `Response *http.Response`, `Message
string`, and `X` tagged `json:"-"` (never matched).  Keys are matched
case-insensitively; each match assigns in textual order (last wins); `null`
leaves a field unchanged; a value of the wrong shape makes `Unmarshal` return
an error (`Option.none` here — the caller then discards the struct's message
and uses the raw body, so the partial assignments Go performs around a type
error are unobservable).  Field-level decoding inside `http.Response` is not
modelled: an object-shaped `response` value is treated as accepted. -/
def decodeErrFields : List (String × Json) → String → Option String
  | [], acc => some acc
  | (k, val) :: rest, acc =>
    if eqFold k "Message" then
      match val with
      | .str s => decodeErrFields rest s
      | .null => decodeErrFields rest acc
      | _ => none
    else if eqFold k "Response" then
      match val with
      | .null => decodeErrFields rest acc
      | .obj _ => decodeErrFields rest acc
      | _ => none
    else decodeErrFields rest acc

/-- The `json.Unmarshal(data, &errorResponse)`, reduced to the resulting
`Message` field: `some m` when `Unmarshal` returns no error (with `m` the
final message, `""` when no `message` key was assigned), `none` when it
errors (non-JSON body, non-object top level, or an ill-shaped field). -/
def unmarshalErrorResponse (data : String) : Option String :=
  match jsonUnmarshal data with
  | some (.obj fs) => decodeErrFields fs ""
  | some .null => some ""
  | some _ => none
  | Option.none => none

/-- The error envelope produced by `checkResponse`, reduced to the observable
the claims are about.  The Go struct also carries the originating
`*http.Response` (method, URL, status) used only by its `Error()` formatter. -/
structure errorResponse where
  Message : String
deriving DecidableEq

/-- The `Message` computed by `checkResponse` from a non-success body: the
body is read in full (`ioutil.ReadAll`, modelled as always succeeding); if it
is non-empty it is `json.Unmarshal`led into the error struct, and on an
`Unmarshal` error the message becomes the raw body text; an empty body leaves
the message empty. -/
def errorMessageFor (data : String) : String :=
  if data = "" then ""
  else
    match unmarshalErrorResponse data with
    | some m => m
    | Option.none => data

/-- The `checkResponse` from the source: status codes 200–299 yield no error;
anything else yields an error envelope whose message comes from the body. -/
def checkResponse (statusCode : Nat) (body : String) : Option errorResponse :=
  if 200 ≤ statusCode ∧ statusCode ≤ 299 then none
  else some ⟨errorMessageFor body⟩

/-- ASCII control characters, which Go's `url.parse` rejects outright
(`stringContainsCTLByte`). -/
def isCtlChar (c : Char) : Bool :=
  c < ' ' || c = '\x7f'

/-- The escaping contexts of Go `net/url` that this embedding uses. -/
inductive EncMode where
  | path
  | host
  | queryComponent
  | fragment
deriving DecidableEq

/-- Go `net/url.shouldEscape` restricted to the four modes used here.  For a
character ≥ U+0080 it answers `true`, matching Go's byte-wise escaping of
every non-ASCII byte. -/
def shouldEscape (mode : EncMode) (c : Char) : Bool :=
  if ('a' ≤ c ∧ c ≤ 'z') ∨ ('A' ≤ c ∧ c ≤ 'Z') ∨ ('0' ≤ c ∧ c ≤ '9') then false
  else if mode = .host ∧ (c = '!' ∨ c = '$' ∨ c = '&' ∨ c = '\'' ∨ c = '(' ∨ c = ')' ∨
      c = '*' ∨ c = '+' ∨ c = ',' ∨ c = ';' ∨ c = '=' ∨ c = ':' ∨ c = '[' ∨ c = ']' ∨
      c = '<' ∨ c = '>' ∨ c = '"') then false
  else if c = '-' ∨ c = '_' ∨ c = '.' ∨ c = '~' then false
  else if c = '$' ∨ c = '&' ∨ c = '+' ∨ c = ',' ∨ c = '/' ∨ c = ':' ∨ c = ';' ∨
      c = '=' ∨ c = '?' ∨ c = '@' then
    match mode with
    | .path => c = '?'
    | .queryComponent => true
    | .fragment => false
    | .host => true
  else if mode = .fragment ∧ (c = '!' ∨ c = '(' ∨ c = ')' ∨ c = '*') then false
  else true

/-- Upper-case hexadecimal digit. -/
def hexDigitUpper (n : Nat) : Char :=
  if n < 10 then Char.ofNat ('0'.toNat + n) else Char.ofNat ('A'.toNat + n - 10)

/-- A percent-escaped byte, `%XX` with upper-case hex as Go emits it. -/
def percentHex (n : Nat) : String :=
  String.mk ['%', hexDigitUpper (n / 16 % 16), hexDigitUpper (n % 16)]

/-- UTF-8 bytes of a character (Go strings are byte strings; escaping acts on
each byte). -/
def utf8Bytes (c : Char) : List Nat :=
  let n := c.toNat
  if n < 0x80 then [n]
  else if n < 0x800 then [0xC0 + n / 0x40, 0x80 + n % 0x40]
  else if n < 0x10000 then
    [0xE0 + n / 0x1000, 0x80 + n / 0x40 % 0x40, 0x80 + n % 0x40]
  else
    [0xF0 + n / 0x40000, 0x80 + n / 0x1000 % 0x40, 0x80 + n / 0x40 % 0x40,
      0x80 + n % 0x40]

/-- Go `net/url.escape` on one character: kept, `+` for a space in a query
component, or percent-escaped byte-wise. -/
def escapeChar (mode : EncMode) (c : Char) : String :=
  if shouldEscape mode c then
    if c = ' ' ∧ mode = .queryComponent then "+"
    else String.join ((utf8Bytes c).map percentHex)
  else String.singleton c

/-- Go `net/url.escape` over a character list. -/
def goEscapeList (mode : EncMode) : List Char → String
  | [] => ""
  | c :: rest => escapeChar mode c ++ goEscapeList mode rest

/-- Go `net/url.escape`. -/
def goEscape (mode : EncMode) (s : String) : String :=
  goEscapeList mode s.data

/-- Go `net/url.QueryEscape`, as used by `url.Values.Encode`. -/
def queryEscape (s : String) : String :=
  goEscape .queryComponent s

mutual

/-- Go `net/url.unescape` for the given mode: `%XX` must be two hex digits;
`+` means a space in a query component.  Escapes of non-ASCII bytes are not
modelled (a decoded byte ≥ 0x80 is rejected): Go assembles raw bytes where
this model works with Unicode characters, and no claim exercises such input. -/
def unescapeList (mode : EncMode) : List Char → Option (List Char)
  | [] => some []
  | c :: rest =>
    if c = '%' then unescapeAfterPct mode rest
    else if c = '+' then
      (unescapeList mode rest).map ((if mode = .queryComponent then ' ' else '+') :: ·)
    else (unescapeList mode rest).map (c :: ·)

/-- After a `%`: the first hex digit. -/
def unescapeAfterPct (mode : EncMode) : List Char → Option (List Char)
  | [] => none
  | a :: rest1 =>
    match hexVal a with
    | some ha => unescapeAfterPct2 mode ha rest1
    | Option.none => none

/-- After a `%` and one hex digit: the second hex digit, then the decoded
byte. -/
def unescapeAfterPct2 (mode : EncMode) (ha : Nat) : List Char → Option (List Char)
  | [] => none
  | b :: rest2 =>
    match hexVal b with
    | some hb =>
      let n := ha * 16 + hb
      if n < 0x80 then (unescapeList mode rest2).map (Char.ofNat n :: ·) else none
    | Option.none => none

end

/-- Go `net/url.URL`, with the fields this client exercises.  `opq` stands
for Go's `Opaque`; `user`/`hasUser` model the `User *Userinfo` pointer as the
raw userinfo text (unescaping of userinfo is not modelled — no claim touches
it). -/
structure GoURL where
  scheme : String := ""
  opq : String := ""
  hasUser : Bool := false
  user : String := ""
  host : String := ""
  path : String := ""
  rawPath : String := ""
  forceQuery : Bool := false
  rawQuery : String := ""
  fragment : String := ""
  rawFragment : String := ""
deriving DecidableEq

/-- Go `net/url.getScheme`, scanning `orig` with `acc` the scheme read so
far: `none` is the "missing protocol scheme" error (`:` first); otherwise the
scheme (possibly empty) and the remainder. -/
def getSchemeGo (orig : List Char) : List Char → List Char → Option (List Char × List Char)
  | _, [] => some ([], orig)
  | acc, c :: rest =>
    if ('a' ≤ c ∧ c ≤ 'z') ∨ ('A' ≤ c ∧ c ≤ 'Z') then
      getSchemeGo orig (c :: acc) rest
    else if ('0' ≤ c ∧ c ≤ '9') ∨ c = '+' ∨ c = '-' ∨ c = '.' then
      if acc = [] then some ([], orig) else getSchemeGo orig (c :: acc) rest
    else if c = ':' then
      if acc = [] then none else some (acc.reverse, rest)
    else some ([], orig)

/-- Split at the first occurrence of a character: `some (before, after)`, or
`none` when absent. -/
def splitAtFirst (ch : Char) : List Char → Option (List Char × List Char)
  | [] => none
  | c :: rest =>
    if c = ch then some ([], rest)
    else (splitAtFirst ch rest).map (fun p => (c :: p.1, p.2))

/-- Split at the last occurrence of a character: `some (before, after)`, or
`none` when absent. -/
def splitAtLast (ch : Char) : List Char → Option (List Char × List Char)
  | [] => none
  | c :: rest =>
    match splitAtLast ch rest with
    | some (b, a) => some (c :: b, a)
    | Option.none => if c = ch then some ([], rest) else none

/-- Go `net/url.validOptionalPort`: empty, or `:` followed by decimal digits
only. -/
def validOptionalPort : List Char → Bool
  | [] => true
  | ':' :: rest => rest.all (·.isDigit)
  | _ => false

/-- Go `net/url.parseHost`, simplified: IPv6 bracket literals and
percent-escaped hosts are not modelled (rejected); the optional port must be
digits after the last colon. -/
def parseHost (l : List Char) : Option (List Char) :=
  if l.any (fun c => c = '[' ∨ c = ']' ∨ c = '%') then none
  else
    match splitAtLast ':' l with
    | some (_, port) => if validOptionalPort (':' :: port) then some l else none
    | Option.none => some l

/-- Go `net/url.validUserinfo` character class. -/
def validUserinfoChar (c : Char) : Bool :=
  ('A' ≤ c ∧ c ≤ 'Z') ∨ ('a' ≤ c ∧ c ≤ 'z') ∨ ('0' ≤ c ∧ c ≤ '9') ∨
    c = '-' ∨ c = '.' ∨ c = '_' ∨ c = ':' ∨ c = '~' ∨ c = '!' ∨ c = '$' ∨ c = '&' ∨
    c = '\'' ∨ c = '(' ∨ c = ')' ∨ c = '*' ∨ c = '+' ∨ c = ',' ∨ c = ';' ∨ c = '=' ∨
    c = '%' ∨ c = '@'

/-- Go `net/url.parseAuthority`: userinfo before the last `@` (kept raw,
validated), host after it. -/
def parseAuthority (l : List Char) : Option (Bool × List Char × List Char) :=
  match splitAtLast '@' l with
  | Option.none => (parseHost l).map (fun h => (false, [], h))
  | some (ui, hostPart) =>
    if ui.all validUserinfoChar then
      (parseHost hostPart).map (fun h => (true, ui, h))
    else none

/-- Go `URL.setPath`: store the decoded path, and the raw path only when
re-escaping the decoded path would not reproduce it. -/
def setPathGo (raw : List Char) : Option (String × String) :=
  match unescapeList .path raw with
  | Option.none => none
  | some p =>
    let ps := String.mk p
    if (goEscape .path ps).data = raw then some (ps, "") else some (ps, String.mk raw)

/-- The query split of Go `net/url.parse`: a lone trailing `?` sets
`forceQuery` with an empty query; otherwise the remainder is cut at the first
`?`.  Returns (rest, rawQuery, forceQuery). -/
def splitQueryGo (rest0 : List Char) : List Char × List Char × Bool :=
  if rest0.getLast? = some '?' ∧ rest0.count '?' = 1 then
    (rest0.dropLast, [], true)
  else
    match splitAtFirst '?' rest0 with
    | some (before, after) => (before, after, false)
    | Option.none => (rest0, [], false)

/-- Go `net/url.parse(rest, viaRequest := false)`: the fragment has already
been split off.  Control characters are rejected; the scheme is extracted and
lower-cased; the query is split off (`splitQueryGo`); a non-rooted remainder
becomes `Opaque` when a scheme is present and must not have a colon in its
first segment otherwise; a `//`-prefixed remainder (except a schemeless
`///`, which stays in the path) carries an authority up to the next `/`; the
rest becomes the path. -/
def urlParseNoFrag (l : List Char) : Option GoURL :=
  if l.any isCtlChar then none
  else if l = ['*'] then some { path := "*" }
  else
    match getSchemeGo l [] l with
    | Option.none => none
    | some (schemeChars, rest0) =>
      let scheme := String.mk (schemeChars.map toLowerAscii)
      let sq := splitQueryGo rest0
      let rest1 := sq.1
      let base : GoURL :=
        { scheme := scheme, forceQuery := sq.2.2, rawQuery := String.mk sq.2.1 }
      if rest1.head? = some '/' then
        if rest1.tail.head? = some '/' ∧
            (scheme ≠ "" ∨ ¬ rest1.tail.tail.head? = some '/') then
          let authAndPath := rest1.tail.tail
          let ar :=
            match splitAtFirst '/' authAndPath with
            | some (a, r) => (a, '/' :: r)
            | Option.none => (authAndPath, [])
          match parseAuthority ar.1 with
          | Option.none => none
          | some (hasU, ui, h) =>
            (setPathGo ar.2).map (fun pp =>
              { base with hasUser := hasU, user := String.mk ui, host := String.mk h,
                          path := pp.1, rawPath := pp.2 })
        else
          (setPathGo rest1).map (fun pp => { base with path := pp.1, rawPath := pp.2 })
      else
        if scheme ≠ "" then some { base with opq := String.mk rest1 }
        else
          let segment :=
            match splitAtFirst '/' rest1 with
            | some (seg, _) => seg
            | Option.none => rest1
          if segment.any (· = ':') then none
          else (setPathGo rest1).map (fun pp => { base with path := pp.1, rawPath := pp.2 })

/-- Go `net/url.Parse` over the character list of the URL: split the
fragment at the first `#`, parse the rest, then decode the fragment (keeping
a raw form only when re-escaping would not reproduce it). -/
def urlParseList (l : List Char) : Option GoURL :=
  match splitAtFirst '#' l with
  | Option.none => urlParseNoFrag l
  | some (before, frag) =>
    match urlParseNoFrag before with
    | Option.none => none
    | some u =>
      match unescapeList .fragment frag with
      | Option.none => none
      | some f =>
        let fs := String.mk f
        if (goEscape .fragment fs).data = frag then
          some { u with fragment := fs, rawFragment := "" }
        else some { u with fragment := fs, rawFragment := String.mk frag }

/-- Go `net/url.Parse`. -/
def urlParse (s : String) : Option GoURL :=
  urlParseList s.data

/-- Go `net/url.validEncoded` for a mode. -/
def validEncoded (mode : EncMode) (l : List Char) : Bool :=
  l.all (fun c =>
    c = '!' ∨ c = '$' ∨ c = '&' ∨ c = '\'' ∨ c = '(' ∨ c = ')' ∨ c = '*' ∨ c = '+' ∨
      c = ',' ∨ c = ';' ∨ c = '=' ∨ c = ':' ∨ c = '@' ∨ c = '[' ∨ c = ']' ∨ c = '%' ∨
      ¬ shouldEscape mode c)

/-- Go `URL.EscapedPath`: the raw path when it is a valid encoding of the
path, otherwise the re-escaped path. -/
def GoURL.escapedPath (u : GoURL) : String :=
  if u.rawPath ≠ "" ∧ validEncoded .path u.rawPath.data ∧
      unescapeList .path u.rawPath.data = some u.path.data then
    u.rawPath
  else goEscape .path u.path

/-- Go `URL.EscapedFragment`. -/
def GoURL.escapedFragment (u : GoURL) : String :=
  if u.rawFragment ≠ "" ∧ validEncoded .fragment u.rawFragment.data ∧
      unescapeList .fragment u.rawFragment.data = some u.fragment.data then
    u.rawFragment
  else goEscape .fragment u.fragment

/-- Whether the segment of `p` before its first `/` contains a colon (Go's
`./`-prefix guard in `URL.String`). -/
def firstSegmentHasColon (p : String) : Bool :=
  match splitAtFirst '/' p.data with
  | some (seg, _) => seg.any (· = ':')
  | Option.none => p.data.any (· = ':')

/-- Go `URL.String()`: scheme, then either the opaque part or
authority + escaped path (with the `/` and `./` disambiguation guards), then
`?query` when forced or non-empty, then `#fragment`. -/
def GoURL.render (u : GoURL) : String :=
  let schemeStr := if u.scheme ≠ "" then u.scheme ++ ":" else ""
  let core :=
    if u.opq ≠ "" then u.opq
    else
      let authStr :=
        if u.scheme ≠ "" ∨ u.host ≠ "" ∨ u.hasUser then
          (if u.host ≠ "" ∨ u.path ≠ "" ∨ u.hasUser then "//" else "") ++
            (if u.hasUser then u.user ++ "@" else "") ++
            goEscape .host u.host
        else ""
      let p := u.escapedPath
      let slash := if p ≠ "" ∧ p.data.head? ≠ some '/' ∧ u.host ≠ "" then "/" else ""
      let dotSlash :=
        if schemeStr = "" ∧ authStr = "" ∧ slash = "" ∧ firstSegmentHasColon p then
          "./"
        else ""
      authStr ++ slash ++ dotSlash ++ p
  schemeStr ++ core ++
    (if u.forceQuery ∨ u.rawQuery ≠ "" then "?" ++ u.rawQuery else "") ++
    (if u.fragment ≠ "" then "#" ++ u.escapedFragment else "")

/-- Lower-case hexadecimal digit (Go's `\u00XX` escapes use lower case). -/
def hexDigitLower (n : Nat) : Char :=
  if n < 10 then Char.ofNat ('0'.toNat + n) else Char.ofNat ('a'.toNat + n - 10)

/-- Go `encoding/json` string escaping with the default HTML-safe encoder:
quote, backslash, the three HTML characters, control characters and the two
line separators are escaped. -/
def jsonEscapeChar (c : Char) : String :=
  if c = '"' then "\\\""
  else if c = '\\' then "\\\\"
  else if c = '\n' then "\\n"
  else if c = '\r' then "\\r"
  else if c = '\t' then "\\t"
  else if c = '<' then "\\u003c"
  else if c = '>' then "\\u003e"
  else if c = '&' then "\\u0026"
  else if c.toNat < 0x20 then
    "\\u00" ++ String.mk [hexDigitLower (c.toNat / 16), hexDigitLower (c.toNat % 16)]
  else if c = ' ' then "\\u2028"
  else if c = ' ' then "\\u2029"
  else String.singleton c

/-- Escape a whole string for a JSON string literal. -/
def jsonEscape (s : String) : String :=
  String.join (s.toList.map jsonEscapeChar)

mutual

/-- Go `json.Marshal` of a JSON value (number literals pass through — the
model keeps Go's formatted form verbatim). -/
def Json.marshal : Json → String
  | .null => "null"
  | .bool true => "true"
  | .bool false => "false"
  | .num lit => lit
  | .str s => "\"" ++ jsonEscape s ++ "\""
  | .arr xs => "[" ++ marshalElems xs ++ "]"
  | .obj fs => "\x7b" ++ marshalMembers fs ++ "\x7d"

/-- Comma-joined marshalled array elements. -/
def marshalElems : List Json → String
  | [] => ""
  | [x] => Json.marshal x
  | x :: rest => Json.marshal x ++ "," ++ marshalElems rest

/-- Comma-joined marshalled object members. -/
def marshalMembers : List (String × Json) → String
  | [] => ""
  | [(k, v)] => "\"" ++ jsonEscape k ++ "\":" ++ Json.marshal v
  | (k, v) :: rest =>
    "\"" ++ jsonEscape k ++ "\":" ++ Json.marshal v ++ "," ++ marshalMembers rest

end

/-- The `PropFilterItem` from the source; `Value interface{}` is modelled as an
optional JSON value (`none` is a nil interface, which `omitempty` drops). -/
structure PropFilterItem where
  Field : String := ""
  Operator : String := ""
  Value : Option Json := none

/-- The `PropFilters` from the source. -/
structure PropFilters where
  Condition : String := ""
  Items : List PropFilterItem := []

/-- Go `json.Marshal` of a `PropFilterItem`: fields `field`, `operator`,
`value`, each `omitempty`, in declaration order. -/
def PropFilterItem.marshal (it : PropFilterItem) : String :=
  "\x7b" ++ String.intercalate ","
    ((if it.Field = "" then [] else ["\"field\":\"" ++ jsonEscape it.Field ++ "\""]) ++
      (if it.Operator = "" then [] else
        ["\"operator\":\"" ++ jsonEscape it.Operator ++ "\""]) ++
      (match it.Value with
       | some v => ["\"value\":" ++ v.marshal]
       | Option.none => [])) ++ "\x7d"

/-- Go `json.Marshal` of `PropFilters`: fields `condition` and `items`, each
`omitempty`, in declaration order. -/
def PropFilters.marshal (p : PropFilters) : String :=
  "\x7b" ++ String.intercalate ","
    ((if p.Condition = "" then [] else
        ["\"condition\":\"" ++ jsonEscape p.Condition ++ "\""]) ++
      (if p.Items.isEmpty then [] else
        ["\"items\":[" ++ String.intercalate "," (p.Items.map PropFilterItem.marshal) ++
          "]"])) ++ "\x7d"

/-- The `ContentOptions` from the source: `legacyMetadata,omitempty` and
`publicId` (no omitempty) in its `url` tags. -/
structure ContentOptions where
  LegacyMetadata : Bool := false
  PublicID : String := ""
deriving DecidableEq

/-- The `SearchOptions` from the source, with its `url` tags: `skip`, `take`,
then the `omitempty` slices, flag, filters and sorting. -/
structure SearchOptions where
  Skip : Int := 0
  Take : Int := 0
  PublicID : List String := []
  ContentDefinition : List String := []
  Repositories : List String := []
  LegacyMetadata : Bool := false
  Tags : List String := []
  PropFilters : PropFilters := {}
  Sorting : Sorting := []

/-- go-querystring `query.Values` contribution of `ContentOptions`, field by
field in declaration order: `legacyMetadata` only when true (`omitempty`
drops the zero bool), `publicId` always. -/
def contentOptionsPairs (o : ContentOptions) : List (String × String) :=
  (if o.LegacyMetadata then [("legacyMetadata", "true")] else []) ++
    [("publicId", o.PublicID)]

/-- The `PropFilters.EncodeValues` from the source: contributes nothing when the
item list is empty, otherwise one `propFilters` parameter holding the
JSON-marshalled filter. -/
def propFiltersPairs (p : PropFilters) : List (String × String) :=
  if p.Items.isEmpty then [] else [("propFilters", p.marshal)]

/-- The `Sorting.EncodeValues` from the source, reached only when the slice is
non-empty (`omitempty` drops an empty slice before the encoder runs):
one `sorting` parameter holding `serializeSorting`. -/
def sortingPairs (s : Sorting) : List (String × String) :=
  if s.isEmpty then [] else [("sorting", serializeSorting s)]

/-- go-querystring `query.Values` contribution of `SearchOptions`: ints
formatted as in Go, one repeated parameter per slice element, the `omitempty`
flag, and the two custom encoders. -/
def searchOptionsPairs (o : SearchOptions) : List (String × String) :=
  [("skip", toString o.Skip), ("take", toString o.Take)] ++
    o.PublicID.map (("publicId", ·)) ++
    o.ContentDefinition.map (("contentDefinition", ·)) ++
    o.Repositories.map (("repositories", ·)) ++
    (if o.LegacyMetadata then [("legacyMetadata", "true")] else []) ++
    o.Tags.map (("tags", ·)) ++
    propFiltersPairs o.PropFilters ++
    sortingPairs o.Sorting

/-- Byte-wise (for the ASCII keys here, character-wise) lexicographic
less-or-equal, the order `sort.Strings` uses in `url.Values.Encode`. -/
def listCharLe : List Char → List Char → Bool
  | [], _ => true
  | _ :: _, [] => false
  | a :: as, b :: bs => if a < b then true else if b < a then false else listCharLe as bs

/-- Go string comparison for sorting keys. -/
def stringLeGo (a b : String) : Bool :=
  listCharLe a.data b.data

/-- Insert a key/value pair into a key-sorted list, before any pair of equal
key coming later in the fold (making `sortPairs` a stable sort). -/
def pairInsert (x : String × String) : List (String × String) → List (String × String)
  | [] => [x]
  | y :: ys => if stringLeGo x.1 y.1 then x :: y :: ys else y :: pairInsert x ys

/-- Stable sort of key/value pairs by key. -/
def sortPairs (l : List (String × String)) : List (String × String) :=
  l.foldr pairInsert []

/-- The `&`-separated join `url.Values.Encode` produces (a separator before
every pair but the first). -/
def joinAmp : List String → String
  | [] => ""
  | [x] => x
  | x :: rest => x ++ "&" ++ joinAmp rest

/-- Go `url.Values.Encode()`: keys sorted (byte-wise, which for the ASCII
keys used here agrees with the character-wise order), values per key kept in
insertion order, each side query-escaped, joined with `&`. -/
def valuesEncode (l : List (String × String)) : String :=
  joinAmp ((sortPairs l).map (fun p => queryEscape p.1 ++ "=" ++ queryEscape p.2))

/-- The options values the client passes to `addOptions`: the online channel
passes `*ContentOptions` / `*SearchOptions`; the preview channel passes (by
value) an anonymous struct embedding the options next to a string field
tagged `url:"targetDate,omitempty"`. -/
inductive OptsVal where
  | content (o : ContentOptions)
  | search (o : SearchOptions)
  | previewContent (o : ContentOptions) (targetDate : String)
  | previewSearch (o : SearchOptions) (targetDate : String)

/-- The dynamic `opts interface{}` argument of `addOptions`: a (possibly
nil) pointer, or a struct value. -/
inductive OptsArg where
  | ptr (p : Option OptsVal)
  | val (v : OptsVal)

/-- The `targetDate,omitempty` contribution of the preview wrapper structs. -/
def targetDatePairs (td : String) : List (String × String) :=
  if td = "" then [] else [("targetDate", td)]

/-- go-querystring `query.Values` of one options value; an embedded struct's
fields are flattened in place, before the wrapper's own fields. -/
def OptsVal.pairs : OptsVal → List (String × String)
  | .content o => contentOptionsPairs o
  | .search o => searchOptionsPairs o
  | .previewContent o td => contentOptionsPairs o ++ targetDatePairs td
  | .previewSearch o td => searchOptionsPairs o ++ targetDatePairs td

/-- go-querystring `query.Values` on an `addOptions` argument.  It cannot
fail on these types: the only error paths are the custom encoders'
`json.Marshal`, total on the modelled filter values. -/
def queryValues : OptsArg → List (String × String)
  | .ptr Option.none => []
  | .ptr (some v) => v.pairs
  | .val v => v.pairs

/-- The `addOptions` from the source: a nil options pointer short-circuits to the
unchanged path before any parsing; otherwise the path is parsed, `RawQuery`
is overwritten with the encoded option values, and the URL is re-rendered. -/
def addOptions (path : String) (opts : OptsArg) : Except String String :=
  match opts with
  | .ptr Option.none => .ok path
  | _ =>
    match urlParse path with
    | Option.none => .error "url parse error"
    | some u => .ok (GoURL.render { u with rawQuery := valuesEncode (queryValues opts) })

/-- The `getOnlineEndpoint` from the source. -/
def getOnlineEndpoint (spaceID method channel : String) : String :=
  "/space/" ++ spaceID ++ "/online/" ++ method ++ "/" ++ channel

/-- The `getPreviewEndpoint` from the source: note the declared parameter order
`(spaceID, method, channel, state)` while the format string interpolates
`spaceID, state, method, channel`. -/
def getPreviewEndpoint (spaceID method channel state : String) : String :=
  "/space/" ++ spaceID ++ "/preview/" ++ state ++ "/" ++ method ++ "/" ++ channel

/-- Go `time.Time`, abstracted to the two observations the client makes of
it: `IsZero()` and `Format(time.RFC3339)`. -/
structure GoTime where
  isZero : Bool := true
  rfc3339 : String := ""
deriving DecidableEq

/-- The `ClientOptions` from the source (README/tests revision: the target date
is a `time.Time`; the optional custom transport carries no observable the
claims mention and is not modelled). -/
structure ClientOptions where
  BaseURL : String := ""
  SpaceID : String := ""
  TargetDate : GoTime := {}

/-- The `Client` from the source. -/
structure Client where
  BaseURL : GoURL
  SpaceID : String
  TargetDate : GoTime

/-- Go `URL.IsAbs`. -/
def GoURL.isAbs (u : GoURL) : Bool :=
  u.scheme ≠ ""

/-- The `NewClient` from the source: parse the base URL — any successful parse is
accepted, there is no absoluteness check — then reject an empty `SpaceID`,
then assemble the client. -/
def NewClient (o : ClientOptions) : Except String Client :=
  match urlParse o.BaseURL with
  | Option.none => .error "url parse error"
  | some u =>
    if o.SpaceID = "" then .error "SpaceID must be setted"
    else .ok ⟨u, o.SpaceID, o.TargetDate⟩

/-- The `OnlineChannel` from the source. -/
structure OnlineChannel where
  client : Client
  name : String
  apiKey : String

/-- The `PreviewChannel` from the source. -/
structure PreviewChannel where
  client : Client
  name : String
  apiKey : String
  state : String

/-- The path-with-query that `OnlineChannel.Content` hands to `newRequest`:
`get` applies `addOptions` to the online content endpoint and the caller's
options pointer. -/
def OnlineChannel.contentRequestTarget (s : OnlineChannel)
    (config : Option ContentOptions) : Except String String :=
  addOptions (getOnlineEndpoint s.client.SpaceID "content" s.name)
    (.ptr (config.map .content))

/-- The path-with-query that `OnlineChannel.Search` hands to `newRequest`. -/
def OnlineChannel.searchRequestTarget (s : OnlineChannel)
    (config : Option SearchOptions) : Except String String :=
  addOptions (getOnlineEndpoint s.client.SpaceID "search/v2" s.name)
    (.ptr (config.map .search))

/-- The `PreviewChannel.Content` up to the request target handed to `newRequest`:
compute the preview endpoint, resolve `targetDate` (left empty when the
client's target date is zero, RFC3339-formatted otherwise), embed the
caller's options next to it, and encode. -/
def PreviewChannel.contentRequestTarget (s : PreviewChannel)
    (config : ContentOptions) : Except String String :=
  let targetDate := if s.client.TargetDate.isZero then "" else s.client.TargetDate.rfc3339
  addOptions (getPreviewEndpoint s.client.SpaceID "content" s.name s.state)
    (.val (.previewContent config targetDate))

/-- The `PreviewChannel.Search` up to the request target handed to `newRequest`. -/
def PreviewChannel.searchRequestTarget (s : PreviewChannel)
    (config : SearchOptions) : Except String String :=
  let targetDate := if s.client.TargetDate.isZero then "" else s.client.TargetDate.rfc3339
  addOptions (getPreviewEndpoint s.client.SpaceID "search/v2" s.name s.state)
    (.val (.previewSearch config targetDate))

/-- Characters that pass through the whole path pipeline untouched: allowed
unescaped in a path by `shouldEscape .path` and not one of the delimiters the
parser splits on (`#`, `?`, `%`, and the escaping-relevant specials).  The
endpoint building blocks (space id, state, method, channel name) are assumed
to consist of such characters in the path-shape theorems. -/
def PlainPathChar (c : Char) : Prop :=
  ('a' ≤ c ∧ c ≤ 'z') ∨ ('A' ≤ c ∧ c ≤ 'Z') ∨ ('0' ≤ c ∧ c ≤ '9') ∨
    c = '-' ∨ c = '_' ∨ c = '.' ∨ c = '~' ∨ c = '$' ∨ c = '&' ∨ c = '+' ∨ c = ',' ∨
    c = '/' ∨ c = ':' ∨ c = ';' ∨ c = '=' ∨ c = '@'

instance (c : Char) : Decidable (PlainPathChar c) := by
  unfold PlainPathChar
  infer_instance

/-- The observable state of the cancellation context at the moment `do`
consults it. -/
inductive CtxStatus where
  | active
  | canceled
  | deadlineExceeded
deriving DecidableEq

/-- The transport's answer to `httpClient.Do`: a transport error, or a
response with a status code and a fully read body. -/
inductive TransportResult where
  | failure (e : String)
  | success (statusCode : Nat) (body : String)

/-- The decode target `v` of `do`: absent (`nil`), an `io.Writer` byte sink,
or a JSON-decoding target holding its current value (`Option.none` models a
target still at its zero value; the concrete Go target types `Response` /
`PaginatedResponse` are abstracted to the decoded JSON value, which is all
the claims observe). -/
inductive Target where
  | none
  | writer (buf : String)
  | jsonTarget (v : Option Json)

/-- The classes of error `do` can return. -/
inductive DoError where
  | nilContext
  | ctxError (s : CtxStatus)
  | transportError (e : String)
  | apiError (r : errorResponse)
  | decodeError
deriving DecidableEq

/-- What one `do` call produced: the outcome (`Option.none` is success), the
final target value, and whether the transport was invoked at all. -/
structure DoResult where
  outcome : Option DoError
  target : Target
  transportInvoked : Bool

/-- Outcome of `json.NewDecoder(body).Decode(v)` reading its first value. -/
inductive DecodeOutcome where
  | eofEmpty
  | ok (v : Json)
  | err

/-- The `json.NewDecoder(r.Body).Decode(v)`: a body with nothing but white space
yields `io.EOF`; otherwise the first JSON value is decoded and any trailing
data is left unread.  A syntax error may leave partial writes in the real
target; no claim observes the target after a decode error, and the model
returns it unchanged there. -/
def jsonDecodeOne (body : String) : DecodeOutcome :=
  if skipWs body.toList = [] then .eofEmpty
  else
    match parseJsonValue (2 * body.length + 2) body.toList with
    | some (v, _) => .ok v
    | Option.none => .err

/-- The `Client.do` from the source (named `doRequest`: `do` is reserved in
Lean).  A nil context errors before the transport is touched.  On a
transport error, Go runs `select ctx.Done() / default`: the context's error
is returned when the context is already done (its status is not `active`),
the transport's error otherwise.  On a response, `checkResponse` classifies
the status; an error aborts decoding and returns the target untouched.  On
success, a `nil` target skips decoding, an `io.Writer` target receives the
body verbatim (`io.Copy`), and any other target is JSON-decoded with
`io.EOF` (empty body) downgraded to success. -/
def doRequest (ctx : Option CtxStatus) (transport : TransportResult) (v : Target) :
    DoResult :=
  match ctx with
  | Option.none => ⟨some .nilContext, v, false⟩
  | some st =>
    match transport with
    | .failure e =>
      match st with
      | .active => ⟨some (.transportError e), v, true⟩
      | .canceled => ⟨some (.ctxError .canceled), v, true⟩
      | .deadlineExceeded => ⟨some (.ctxError .deadlineExceeded), v, true⟩
    | .success code body =>
      match checkResponse code body with
      | some er => ⟨some (.apiError er), v, true⟩
      | Option.none =>
        match v with
        | .none => ⟨Option.none, .none, true⟩
        | .writer buf => ⟨Option.none, .writer (buf ++ body), true⟩
        | .jsonTarget cur =>
          match jsonDecodeOne body with
          | .eofEmpty => ⟨Option.none, .jsonTarget cur, true⟩
          | .ok val => ⟨Option.none, .jsonTarget (some val), true⟩
          | .err => ⟨some .decodeError, .jsonTarget cur, true⟩

/-- A plain path character is not any specific non-plain character. -/
theorem PlainPathChar.notChar {c x : Char} (h : PlainPathChar c)
    (hx : ¬ PlainPathChar x) : c ≠ x :=
  fun he => hx (he ▸ h)

/-- Nothing non-plain occurs in an all-plain list. -/
theorem plain_not_mem {l : List Char} (h : ∀ c ∈ l, PlainPathChar c) {x : Char}
    (hx : ¬ PlainPathChar x) : x ∉ l :=
  fun hm => hx (h x hm)

/-- All-plain lists compose under append. -/
theorem plain_append {a b : List Char} (ha : ∀ c ∈ a, PlainPathChar c)
    (hb : ∀ c ∈ b, PlainPathChar c) : ∀ c ∈ a ++ b, PlainPathChar c :=
  fun c hc => (List.mem_append.mp hc).elim (ha c) (hb c)

/-- Plain path characters are not control characters. -/
theorem isCtlChar_eq_false_of_plain {c : Char} (h : PlainPathChar c) :
    isCtlChar c = false := by
  have h1 : ¬ c < ' ' := by
    rcases h with h | h | h | h | h | h | h | h | h | h | h | h | h | h | h | h
    · exact not_lt.mpr (le_trans (by decide) h.1)
    · exact not_lt.mpr (le_trans (by decide) h.1)
    · exact not_lt.mpr (le_trans (by decide) h.1)
    all_goals (subst h; decide)
  have h2 : c ≠ '\x7f' := h.notChar (by decide)
  simp [isCtlChar, h1, h2]

/-- Plain path characters are not escaped in path mode. -/
theorem shouldEscape_path_eq_false {c : Char} (h : PlainPathChar c) :
    shouldEscape .path c = false := by
  unfold shouldEscape
  rcases h with h | h | h | h | h | h | h | h | h | h | h | h | h | h | h | h
  · rw [if_pos (Or.inl h)]
  · rw [if_pos (Or.inr (Or.inl h))]
  · rw [if_pos (Or.inr (Or.inr h))]
  all_goals (subst h; decide)

/-- Path-escaping an all-plain list reproduces it. -/
theorem goEscapeList_plain {l : List Char} (h : ∀ c ∈ l, PlainPathChar c) :
    goEscapeList .path l = String.mk l := by
  induction l with
  | nil => rfl
  | cons c rest ih =>
    have hc := h c (List.mem_cons_self c rest)
    have hrest : ∀ x ∈ rest, PlainPathChar x := fun x hx => h x (List.mem_cons_of_mem _ hx)
    show escapeChar .path c ++ goEscapeList .path rest = String.mk (c :: rest)
    rw [ih hrest]
    unfold escapeChar
    rw [shouldEscape_path_eq_false hc]
    rfl

/-- Path-unescaping an all-plain list reproduces it. -/
theorem unescapeList_plain {l : List Char} (h : ∀ c ∈ l, PlainPathChar c) :
    unescapeList .path l = some l := by
  induction l with
  | nil => rfl
  | cons c rest ih =>
    have hc := h c (List.mem_cons_self c rest)
    have hrest : ∀ x ∈ rest, PlainPathChar x := fun x hx => h x (List.mem_cons_of_mem _ hx)
    rw [unescapeList, if_neg (hc.notChar (by decide)), ih hrest]
    by_cases hp : c = '+'
    · rw [if_pos hp]
      subst hp
      rfl
    · rw [if_neg hp]
      rfl

/-- Splitting on an absent character finds nothing. -/
theorem splitAtFirst_eq_none {ch : Char} {l : List Char} (h : ch ∉ l) :
    splitAtFirst ch l = Option.none := by
  induction l with
  | nil => rfl
  | cons c rest ih =>
    rw [splitAtFirst, if_neg (by rintro rfl; exact h (List.mem_cons_self _ _)),
      ih (fun hm => h (List.mem_cons_of_mem _ hm))]
    rfl

/-- The `getScheme` finds no scheme in a rooted remainder. -/
theorem getSchemeGo_slash (orig acc rest : List Char) :
    getSchemeGo orig acc ('/' :: rest) = some ([], orig) := by
  rw [getSchemeGo, if_neg (by decide), if_neg (by decide), if_neg (by decide)]

/-- The query split is the identity when the remainder has no `?`. -/
theorem splitQueryGo_no_query {l : List Char} (h : '?' ∉ l) :
    splitQueryGo l = (l, [], false) := by
  unfold splitQueryGo
  rw [if_neg fun hc => by
        rw [List.count_eq_zero_of_not_mem h] at hc
        exact absurd hc.2 (by decide),
    splitAtFirst_eq_none h]

/-- The `setPath` on an all-plain list stores it as the decoded path with no raw
form. -/
theorem setPathGo_plain {l : List Char} (h : ∀ c ∈ l, PlainPathChar c) :
    setPathGo l = some (String.mk l, "") := by
  have he : (goEscape .path (String.mk l)).data = l := by
    show (goEscapeList .path l).data = l
    rw [goEscapeList_plain h]
  unfold setPathGo
  rw [unescapeList_plain h]
  simp [he]

/-- Go `url.Parse` of an all-plain rooted path (not `//`-prefixed) yields the
URL with exactly that path and every other component empty. -/
theorem urlParseList_plain_rooted {l : List Char} (h : ∀ c ∈ l, PlainPathChar c)
    (h1 : l.head? = some '/') (h2 : l.tail.head? ≠ some '/') :
    urlParseList l = some { path := String.mk l } := by
  obtain ⟨t, rfl⟩ : ∃ t, l = '/' :: t := by
    cases l with
    | nil => cases h1
    | cons c rest =>
      have hc := Option.some.inj h1
      subst hc
      exact ⟨rest, rfl⟩
  have hhash : '#' ∉ '/' :: t := plain_not_mem h (by decide)
  have hq : '?' ∉ '/' :: t := plain_not_mem h (by decide)
  have hctl : ('/' :: t).any isCtlChar = false := by
    rw [List.any_eq_false]
    intro c hc
    simp [isCtlChar_eq_false_of_plain (h c hc)]
  have hstar : ('/' :: t) ≠ ['*'] := by
    intro he
    injection he with he1 _
    exact absurd he1 (by decide)
  unfold urlParseList
  rw [splitAtFirst_eq_none hhash]
  show urlParseNoFrag ('/' :: t) = _
  unfold urlParseNoFrag
  rw [if_neg (by simp [hctl]), if_neg hstar, getSchemeGo_slash]
  show (let scheme := String.mk ([].map toLowerAscii)
        let sq := splitQueryGo ('/' :: t)
        let rest1 := sq.1
        let base : GoURL :=
          { scheme := scheme, forceQuery := sq.2.2, rawQuery := String.mk sq.2.1 }
        if rest1.head? = some '/' then
          if rest1.tail.head? = some '/' ∧
              (scheme ≠ "" ∨ ¬ rest1.tail.tail.head? = some '/') then
            let authAndPath := rest1.tail.tail
            let ar :=
              match splitAtFirst '/' authAndPath with
              | some (a, r) => (a, '/' :: r)
              | Option.none => (authAndPath, [])
            match parseAuthority ar.1 with
            | Option.none => none
            | some (hasU, ui, hh) =>
              (setPathGo ar.2).map (fun pp =>
                { base with hasUser := hasU, user := String.mk ui, host := String.mk hh,
                            path := pp.1, rawPath := pp.2 })
          else
            (setPathGo rest1).map (fun pp => { base with path := pp.1, rawPath := pp.2 })
        else
          if scheme ≠ "" then some { base with opq := String.mk rest1 }
          else
            let segment :=
              match splitAtFirst '/' rest1 with
              | some (seg, _) => seg
              | Option.none => rest1
            if segment.any (· = ':') then none
            else (setPathGo rest1).map (fun pp => { base with path := pp.1, rawPath := pp.2 }))
      = some { path := String.mk ('/' :: t) }
  simp only [splitQueryGo_no_query hq, List.map_nil]
  rw [if_pos (show ('/' :: t).head? = some '/' from rfl),
    if_neg (fun hand => h2 hand.1), setPathGo_plain h]
  rfl

/-- Rendering a URL that holds only an all-plain rooted path and a non-empty
raw query appends `?query` to the path verbatim. -/
theorem render_plain_rooted {l : List Char} (h : ∀ c ∈ l, PlainPathChar c)
    (h1 : l.head? = some '/') (q : String) (hq : q ≠ "") :
    GoURL.render { path := String.mk l, rawQuery := q } = String.mk l ++ "?" ++ q := by
  obtain ⟨t, rfl⟩ : ∃ t, l = '/' :: t := by
    cases l with
    | nil => cases h1
    | cons c rest =>
      have hc := Option.some.inj h1
      subst hc
      exact ⟨rest, rfl⟩
  have hesc : goEscape .path (String.mk ('/' :: t)) = String.mk ('/' :: t) := by
    show goEscapeList .path ('/' :: t) = _
    exact goEscapeList_plain h
  unfold GoURL.render GoURL.escapedPath GoURL.escapedFragment firstSegmentHasColon
  simp [hesc, hq, splitAtFirst]
  apply String.ext
  simp [String.data_append]

/-- A `key=value` component is never the empty string. -/
theorem kv_ne_empty (a b : String) : a ++ "=" ++ b ≠ "" := by
  intro he
  have hd := congrArg String.data he
  simp [String.data_append] at hd

/-- The `&`-join of a non-empty list of `key=value` components is not empty. -/
theorem joinAmp_ne_empty : ∀ {l : List String}, l ≠ [] →
    (∀ s ∈ l, ∃ a b, s = a ++ "=" ++ b) → joinAmp l ≠ ""
  | [], h, _ => absurd rfl h
  | [x], _, hs => by
    obtain ⟨a, b, rfl⟩ := hs x (List.mem_singleton_self x)
    exact kv_ne_empty a b
  | x :: y :: rest, _, hs => by
    intro he
    obtain ⟨a, b, rfl⟩ := hs _ (List.mem_cons_self _ _)
    have hd := congrArg String.data he
    simp [joinAmp, String.data_append] at hd

/-- Insertion grows the pair list by one. -/
theorem length_pairInsert (x : String × String) (l : List (String × String)) :
    (pairInsert x l).length = l.length + 1 := by
  induction l with
  | nil => rfl
  | cons y ys ih =>
    rw [pairInsert]
    split
    · simp
    · simp [ih]

/-- Sorting preserves the number of pairs. -/
theorem length_sortPairs (l : List (String × String)) :
    (sortPairs l).length = l.length := by
  induction l with
  | nil => rfl
  | cons x xs ih =>
    show (pairInsert x (sortPairs xs)).length = xs.length + 1
    rw [length_pairInsert, ih]

/-- Encoding a non-empty pair list produces a non-empty query string. -/
theorem valuesEncode_ne_empty {l : List (String × String)} (h : l ≠ []) :
    valuesEncode l ≠ "" := by
  apply joinAmp_ne_empty
  · intro hm
    have := congrArg List.length hm
    rw [List.length_map, length_sortPairs] at this
    exact h (List.length_eq_zero.mp this)
  · intro s hs
    rw [List.mem_map] at hs
    obtain ⟨p, _, rfl⟩ := hs
    exact ⟨queryEscape p.1, queryEscape p.2, rfl⟩

/-- The `ContentOptions` always encodes at least the `publicId` parameter. -/
theorem contentOptionsPairs_ne_nil (o : ContentOptions) :
    contentOptionsPairs o ≠ [] := by
  unfold contentOptionsPairs
  split <;> simp

/-- The `SearchOptions` always encodes at least `skip` and `take`. -/
theorem searchOptionsPairs_ne_nil (o : SearchOptions) :
    searchOptionsPairs o ≠ [] := by
  intro he
  have := congrArg List.length he
  simp [searchOptionsPairs] at this

/-- The `addOptions` on an all-plain rooted path and a present (non-nil-pointer)
options value: the path is parsed, the query values are encoded into the
query component, and the result is the path, a `?`, and the encoded query —
whatever query the path may have carried is gone. -/
theorem addOptions_plain_rooted {p : String} (hp : ∀ c ∈ p.data, PlainPathChar c)
    (h1 : p.data.head? = some '/') (h2 : p.data.tail.head? ≠ some '/')
    (opts : OptsArg) (hne : opts ≠ .ptr Option.none) (hq : queryValues opts ≠ []) :
    addOptions p opts = .ok (p ++ "?" ++ valuesEncode (queryValues opts)) := by
  have hparse : urlParse p = some { path := p } := by
    show urlParseList p.data = some { path := p }
    rw [urlParseList_plain_rooted hp h1 h2]
  have hren : GoURL.render { path := p, rawQuery := valuesEncode (queryValues opts) }
      = p ++ "?" ++ valuesEncode (queryValues opts) :=
    render_plain_rooted hp h1 _ (valuesEncode_ne_empty hq)
  cases opts with
  | ptr po =>
    cases po with
    | none => exact absurd rfl hne
    | some v => simp [addOptions, hparse, hren]
  | val v => simp [addOptions, hparse, hren]

/-- The `targetDate` is not among the parameter names `ContentOptions` encodes. -/
theorem targetDate_not_mem_content (o : ContentOptions) :
    "targetDate" ∉ (contentOptionsPairs o).map Prod.fst := by
  unfold contentOptionsPairs
  split <;> simp

/-- The `targetDate` is not among the parameter names `SearchOptions` encodes. -/
theorem targetDate_not_mem_search (o : SearchOptions) :
    "targetDate" ∉ (searchOptionsPairs o).map Prod.fst := by
  intro hm
  by_cases hl : o.LegacyMetadata <;> by_cases hpf : o.PropFilters.Items.isEmpty <;>
    by_cases hso : o.Sorting.isEmpty <;>
      simp [searchOptionsPairs, propFiltersPairs, sortingPairs, hl, hpf, hso] at hm

/-- The repository's own unit-test vectors for `serializeSorting`
(`Test_serializeSorting`), reproduced against the embedding. -/
theorem serializeSorting_matches_unit_tests :
    serializeSorting [⟨"", false⟩] = ""
      ∧ serializeSorting [⟨" publicId", true⟩] = "+publicId"
      ∧ serializeSorting [⟨"publicId", false⟩] = "-publicId"
      ∧ serializeSorting [⟨"publicId", true⟩] = "+publicId"
      ∧ serializeSorting [⟨"publicId", true⟩, ⟨"onlineDate", false⟩]
          = "+publicId,-onlineDate" := by
  refine ⟨rfl, ?_, rfl, rfl, rfl⟩
  rfl

/-- C1: the claim fails on the code.  An entry with an empty field name is
skipped, but its preallocated slot still takes part in the comma join, so a
stray comma is emitted next to it; and an entry whose field name is
whitespace-only (empty only after trimming) is not skipped at all — the skip
tests the length before trimming — so it is emitted as a bare sign. -/
theorem serializeSorting_skips_leave_slots :
    serializeSorting [⟨"", true⟩, ⟨"publicId", true⟩] = ",+publicId"
      ∧ serializeSorting [⟨" ", true⟩] = "+" := by
  exact ⟨rfl, rfl⟩

/-- C2: counterexample to the claim as stated.  The body `{"foo":1}` is
valid JSON that contains no message field, so it falls under the claim's
"every other case" and the claim requires the raw body text as the message;
but `json.Unmarshal` accepts the body (unknown fields are ignored), touches
nothing, and the message stays empty.  The last conjunct records that the
unmarshal indeed succeeds with an empty message. -/
theorem checkResponse_message_not_raw_body :
    checkResponse 400 "\x7b\"foo\":1\x7d" = some ⟨""⟩
      ∧ checkResponse 400 "\x7b\"foo\":1\x7d" ≠ some ⟨"\x7b\"foo\":1\x7d"⟩
      ∧ unmarshalErrorResponse "\x7b\"foo\":1\x7d" = some "" := by
  refine ⟨rfl, ?_, rfl⟩
  decide

/-- C2 (amended): for every non-2xx response, the error's message is: empty
when the body is empty; the raw body text when the body is non-empty and
`json.Unmarshal` rejects it (non-JSON, a non-object top level, or an
ill-shaped field); and the decoded message-field value when the unmarshal
accepts the body — which leaves the message empty when the field is absent,
rather than falling back to the raw text. -/
theorem checkResponse_message_classification (code : Nat) (body : String)
    (h : ¬ (200 ≤ code ∧ code ≤ 299)) :
    (body = "" → checkResponse code body = some ⟨""⟩)
      ∧ (body ≠ "" → unmarshalErrorResponse body = Option.none →
          checkResponse code body = some ⟨body⟩)
      ∧ (∀ m, unmarshalErrorResponse body = some m →
          checkResponse code body = some ⟨m⟩) := by
  refine ⟨?_, ?_, ?_⟩
  · intro hb
    subst hb
    simp [checkResponse, h, errorMessageFor]
  · intro hb hn
    simp [checkResponse, h, errorMessageFor, hb, hn]
  · intro m hm
    by_cases hb : body = ""
    · subst hb
      rw [show unmarshalErrorResponse "" = Option.none from rfl] at hm
      cases hm
    · simp [checkResponse, h, errorMessageFor, hb, hm]

/-- C2 witness: the amended claim applied to a 400 response with the body
`{"message":"m"}` yields the message `m`. -/
theorem checkResponse_message_classification_witness :
    checkResponse 400 "\x7b\"message\":\"m\"\x7d" = some ⟨"m"⟩ :=
  (checkResponse_message_classification 400 "\x7b\"message\":\"m\"\x7d"
    (by decide)).2.2 "m" rfl

/-- C3: counterexample to the claim as stated.  `url.Parse` accepts relative
URLs, and `NewClient` performs no absoluteness check: a plainly relative base
URL yields a successfully constructed client. -/
theorem NewClient_accepts_relative_baseURL :
    NewClient { BaseURL := "/relative", SpaceID := "aSpace" }
        = .ok { BaseURL := { path := "/relative" }, SpaceID := "aSpace",
                TargetDate := {} }
      ∧ GoURL.isAbs { path := "/relative" } = false := by
  exact ⟨rfl, rfl⟩

/-- C3 (amended): `NewClient` fails exactly when the base URL string fails
to parse as a URL (absolute or relative — absoluteness is not validated) or
the space identifier is empty; a successfully constructed client holds the
parsed base URL, which need not be absolute, and a non-empty `SpaceID`. -/
theorem NewClient_validation (o : ClientOptions) :
    (∀ c, NewClient o = .ok c →
        urlParse o.BaseURL = some c.BaseURL ∧ c.SpaceID = o.SpaceID ∧ c.SpaceID ≠ "")
      ∧ (NewClient o).isOk = ((urlParse o.BaseURL).isSome && !(o.SpaceID == "")) := by
  constructor
  · intro c hc
    unfold NewClient at hc
    split at hc
    · cases hc
    · rename_i u hu
      split at hc
      · cases hc
      · rename_i hs
        cases hc
        exact ⟨hu, rfl, hs⟩
  · unfold NewClient
    cases hu : urlParse o.BaseURL with
    | none => rfl
    | some u =>
      show (if o.SpaceID = "" then (Except.error "SpaceID must be setted" : Except String Client)
            else Except.ok ⟨u, o.SpaceID, o.TargetDate⟩).isOk
          = ((some u).isSome && !(o.SpaceID == ""))
      by_cases hs : o.SpaceID = ""
      · rw [if_pos hs, hs]
        rfl
      · rw [if_neg hs]
        have hb : (o.SpaceID == "") = false := by
          simpa using hs
        simp [hb, Except.isOk, Except.toBool]

/-- C3 witness: the amended claim applied to the absolute base URL and
non-empty space identifier the repository's tests use. -/
theorem NewClient_validation_witness :
    urlParse "https://api.contentchef.io/"
        = some { scheme := "https", host := "api.contentchef.io", path := "/" }
      ∧ "my_space" ≠ "" := by
  have h := (NewClient_validation
      { BaseURL := "https://api.contentchef.io/", SpaceID := "my_space" }).1
    { BaseURL := { scheme := "https", host := "api.contentchef.io", path := "/" },
      SpaceID := "my_space", TargetDate := {} } rfl
  exact ⟨h.1, h.2.2⟩

/-- C5: `checkResponse` accepts exactly the status codes 200 through 299,
and for every other code `do` returns the classified API error with the
target value untouched — the decode step is never reached. -/
theorem do_status_classification (code : Nat) (body : String) (v : Target) :
    (checkResponse code body = Option.none ↔ (200 ≤ code ∧ code ≤ 299))
      ∧ (¬ (200 ≤ code ∧ code ≤ 299) →
          doRequest (some .active) (.success code body) v
            = ⟨some (.apiError ⟨errorMessageFor body⟩), v, true⟩) := by
  constructor
  · unfold checkResponse
    by_cases h : 200 ≤ code ∧ code ≤ 299 <;> simp [h]
  · intro h
    simp only [doRequest, checkResponse, if_neg h]

/-- C5 witness: a 404 response with a non-JSON body produces the API error
carrying the raw body as message and leaves the (nil) target untouched. -/
theorem do_status_classification_witness :
    doRequest (some .active) (.success 404 "oops") Target.none
      = ⟨some (.apiError ⟨"oops"⟩), Target.none, true⟩ :=
  ((do_status_classification 404 "oops" Target.none).2 (by decide)).trans rfl

/-- C6: a successful (2xx) response with an empty body and a JSON-decoding
target decodes as success (`io.EOF` is downgraded to nil) and leaves the
target exactly as it was — in particular at its zero value, which is what
every call site passes in. -/
theorem do_empty_body_keeps_target (code : Nat) (v : Option Json)
    (h : 200 ≤ code ∧ code ≤ 299) :
    doRequest (some .active) (.success code "") (.jsonTarget v)
      = ⟨Option.none, .jsonTarget v, true⟩ := by
  simp only [doRequest, checkResponse, if_pos h]
  rfl

/-- C6 witness: a 204 response with an empty body and a zero-valued target
succeeds with the target still at its zero value. -/
theorem do_empty_body_keeps_target_witness :
    doRequest (some .active) (.success 204 "") (.jsonTarget Option.none)
      = ⟨Option.none, .jsonTarget Option.none, true⟩ :=
  do_empty_body_keeps_target 204 Option.none (by decide)

/-- C7: when the transport fails, `do` returns the context's error whenever
the context is already done (cancelled or past its deadline) at that moment,
and the transport's error unchanged otherwise. -/
theorem do_transport_error_prefers_ctx (e : String) (v : Target) (st : CtxStatus) :
    (st = .active →
        doRequest (some st) (.failure e) v = ⟨some (.transportError e), v, true⟩)
      ∧ (st ≠ .active →
          doRequest (some st) (.failure e) v = ⟨some (.ctxError st), v, true⟩) := by
  constructor
  · intro h
    subst h
    rfl
  · intro h
    cases st with
    | active => exact absurd rfl h
    | canceled => rfl
    | deadlineExceeded => rfl

/-- C7 witness: a cancelled context turns a transport failure into the
context's cancellation error; an active context passes the transport error
through. -/
theorem do_transport_error_prefers_ctx_witness :
    doRequest (some .canceled) (.failure "connection refused") Target.none
        = ⟨some (.ctxError .canceled), Target.none, true⟩
      ∧ doRequest (some .active) (.failure "connection refused") Target.none
        = ⟨some (.transportError "connection refused"), Target.none, true⟩ :=
  ⟨(do_transport_error_prefers_ctx "connection refused" Target.none .canceled).2
      (by decide),
   (do_transport_error_prefers_ctx "connection refused" Target.none .active).1 rfl⟩

/-- C8: a nil context makes `do` fail immediately, for every request and
target, before the transport is invoked (`transportInvoked = false`), so no
network round trip happens on that call. -/
theorem do_nil_context (t : TransportResult) (v : Target) :
    doRequest Option.none t v = ⟨some .nilContext, v, false⟩ := rfl

/-- C9: a nil options pointer short-circuits `addOptions` to success with
the input path returned exactly as given, for every path — the early return
happens before any parsing or encoding, so nothing is appended or
re-rendered. -/
theorem addOptions_nil_pointer (path : String) :
    addOptions path (.ptr Option.none) = .ok path := rfl

/-- C10: for every parseable input path and every non-nil options value, the
result URL's query component is exactly the encoding of the options —
`RawQuery` is overwritten with `qs.Encode()`, so whatever query the input
path carried (`u.rawQuery`) is discarded, never merged or appended. -/
theorem addOptions_replaces_query (path : String) (opts : OptsArg) (u : GoURL)
    (hp : urlParse path = some u) (hne : opts ≠ OptsArg.ptr Option.none) :
    addOptions path opts
      = .ok (GoURL.render { u with rawQuery := valuesEncode (queryValues opts) }) := by
  cases opts with
  | ptr po =>
    cases po with
    | none => exact absurd rfl hne
    | some v => simp [addOptions, hp]
  | val v => simp [addOptions, hp]

/-- C10 witness: encoding `ContentOptions{PublicID: "bar"}` onto a path that
already carries `?foo=old` yields exactly the options' encoding; the old
query is gone. -/
theorem addOptions_replaces_query_witness :
    addOptions "/something?foo=old" (.ptr (some (.content { PublicID := "bar" })))
      = .ok "/something?publicId=bar" := by
  have h := addOptions_replaces_query "/something?foo=old"
    (.ptr (some (.content { PublicID := "bar" })))
    { path := "/something", rawQuery := "foo=old" } rfl (by intro hh; cases hh)
  exact h.trans (by rfl)

/-- C4: for a preview channel over space `sp`, state `st` and channel name
`nm` (all path-plain), the Content and Search operations hand `newRequest`
the path `/space/sp/preview/st/content/nm` resp.
`/space/sp/preview/st/search/v2/nm` with the encoded query of the caller's
options plus a `targetDate` pair holding the RFC3339-formatted client target
date; the `targetDate` parameter is present in the encoded pairs exactly
when the client's target date is non-zero, and when it is zero the encoded
pairs are exactly the ones the online channel encodes for the same options
(whose request targets the last two conjuncts exhibit). -/
theorem preview_channel_requests (bu : GoURL) (sp nm st key : String) (td : GoTime)
    (cfg : ContentOptions) (scfg : SearchOptions)
    (hsp : ∀ c ∈ sp.data, PlainPathChar c)
    (hnm : ∀ c ∈ nm.data, PlainPathChar c)
    (hst : ∀ c ∈ st.data, PlainPathChar c)
    (htd : td.isZero = false → td.rfc3339 ≠ "") :
    getPreviewEndpoint sp "content" nm st
        = "/space/" ++ sp ++ "/preview/" ++ st ++ "/content/" ++ nm
      ∧ getPreviewEndpoint sp "search/v2" nm st
        = "/space/" ++ sp ++ "/preview/" ++ st ++ "/search/v2/" ++ nm
      ∧ (PreviewChannel.mk ⟨bu, sp, td⟩ nm key st).contentRequestTarget cfg
        = .ok (getPreviewEndpoint sp "content" nm st ++ "?"
            ++ valuesEncode (contentOptionsPairs cfg
              ++ targetDatePairs (if td.isZero then "" else td.rfc3339)))
      ∧ (PreviewChannel.mk ⟨bu, sp, td⟩ nm key st).searchRequestTarget scfg
        = .ok (getPreviewEndpoint sp "search/v2" nm st ++ "?"
            ++ valuesEncode (searchOptionsPairs scfg
              ++ targetDatePairs (if td.isZero then "" else td.rfc3339)))
      ∧ ("targetDate" ∈ ((contentOptionsPairs cfg
            ++ targetDatePairs (if td.isZero then "" else td.rfc3339)).map Prod.fst)
          ↔ td.isZero = false)
      ∧ ("targetDate" ∈ ((searchOptionsPairs scfg
            ++ targetDatePairs (if td.isZero then "" else td.rfc3339)).map Prod.fst)
          ↔ td.isZero = false)
      ∧ (td.isZero = true →
          contentOptionsPairs cfg
              ++ targetDatePairs (if td.isZero then "" else td.rfc3339)
            = contentOptionsPairs cfg
          ∧ searchOptionsPairs scfg
              ++ targetDatePairs (if td.isZero then "" else td.rfc3339)
            = searchOptionsPairs scfg)
      ∧ (OnlineChannel.mk ⟨bu, sp, td⟩ nm key).contentRequestTarget (some cfg)
        = .ok (getOnlineEndpoint sp "content" nm ++ "?"
            ++ valuesEncode (contentOptionsPairs cfg))
      ∧ (OnlineChannel.mk ⟨bu, sp, td⟩ nm key).searchRequestTarget (some scfg)
        = .ok (getOnlineEndpoint sp "search/v2" nm ++ "?"
            ++ valuesEncode (searchOptionsPairs scfg)) := by
  have hplainPC : ∀ c ∈ (getPreviewEndpoint sp "content" nm st).data, PlainPathChar c := by
    unfold getPreviewEndpoint
    simp only [String.data_append]
    exact plain_append (plain_append (plain_append (plain_append (plain_append
      (plain_append (plain_append (by decide) hsp) (by decide)) hst) (by decide))
      (by decide)) (by decide)) hnm
  have hplainPS : ∀ c ∈ (getPreviewEndpoint sp "search/v2" nm st).data, PlainPathChar c := by
    unfold getPreviewEndpoint
    simp only [String.data_append]
    exact plain_append (plain_append (plain_append (plain_append (plain_append
      (plain_append (plain_append (by decide) hsp) (by decide)) hst) (by decide))
      (by decide)) (by decide)) hnm
  have hplainOC : ∀ c ∈ (getOnlineEndpoint sp "content" nm).data, PlainPathChar c := by
    unfold getOnlineEndpoint
    simp only [String.data_append]
    exact plain_append (plain_append (plain_append (plain_append (plain_append
      (by decide) hsp) (by decide)) (by decide)) (by decide)) hnm
  have hplainOS : ∀ c ∈ (getOnlineEndpoint sp "search/v2" nm).data, PlainPathChar c := by
    unfold getOnlineEndpoint
    simp only [String.data_append]
    exact plain_append (plain_append (plain_append (plain_append (plain_append
      (by decide) hsp) (by decide)) (by decide)) (by decide)) hnm
  obtain ⟨iz, r⟩ := td
  refine ⟨?_, ?_, ?_, ?_, ?_, ?_, ?_, ?_, ?_⟩
  · apply String.ext
    simp only [getPreviewEndpoint, String.data_append, List.append_assoc]
    rfl
  · apply String.ext
    simp only [getPreviewEndpoint, String.data_append, List.append_assoc]
    rfl
  · exact addOptions_plain_rooted hplainPC rfl
      (fun hh => absurd (Option.some.inj hh) (by decide))
      (OptsArg.val (.previewContent cfg (if iz then "" else r)))
      (by intro hh; cases hh)
      (fun he => contentOptionsPairs_ne_nil cfg (List.append_eq_nil.mp he).1)
  · exact addOptions_plain_rooted hplainPS rfl
      (fun hh => absurd (Option.some.inj hh) (by decide))
      (OptsArg.val (.previewSearch scfg (if iz then "" else r)))
      (by intro hh; cases hh)
      (fun he => searchOptionsPairs_ne_nil scfg (List.append_eq_nil.mp he).1)
  · cases iz with
    | true =>
      constructor
      · intro hm
        rw [show targetDatePairs (if (true : Bool) then "" else r) = [] from rfl,
          List.append_nil] at hm
        exact absurd hm (targetDate_not_mem_content cfg)
      · intro hff
        exact Bool.noConfusion hff
    | false =>
      have hr : r ≠ "" := htd rfl
      constructor
      · intro _
        rfl
      · intro _
        rw [show (if (false : Bool) then "" else r) = r from rfl,
          show targetDatePairs r = [("targetDate", r)] from if_neg hr, List.map_append]
        exact List.mem_append_right _ (by simp)
  · cases iz with
    | true =>
      constructor
      · intro hm
        rw [show targetDatePairs (if (true : Bool) then "" else r) = [] from rfl,
          List.append_nil] at hm
        exact absurd hm (targetDate_not_mem_search scfg)
      · intro hff
        exact Bool.noConfusion hff
    | false =>
      have hr : r ≠ "" := htd rfl
      constructor
      · intro _
        rfl
      · intro _
        rw [show (if (false : Bool) then "" else r) = r from rfl,
          show targetDatePairs r = [("targetDate", r)] from if_neg hr, List.map_append]
        exact List.mem_append_right _ (by simp)
  · intro hz
    cases iz with
    | true =>
      exact ⟨by rw [show targetDatePairs (if (true : Bool) then "" else r) = [] from rfl,
          List.append_nil],
        by rw [show targetDatePairs (if (true : Bool) then "" else r) = [] from rfl,
          List.append_nil]⟩
    | false => exact Bool.noConfusion hz
  · exact addOptions_plain_rooted hplainOC rfl
      (fun hh => absurd (Option.some.inj hh) (by decide))
      (OptsArg.ptr (some (.content cfg)))
      (by intro hh; injection hh with hh2; cases hh2)
      (contentOptionsPairs_ne_nil cfg)
  · exact addOptions_plain_rooted hplainOS rfl
      (fun hh => absurd (Option.some.inj hh) (by decide))
      (OptsArg.ptr (some (.search scfg)))
      (by intro hh; injection hh with hh2; cases hh2)
      (searchOptionsPairs_ne_nil scfg)

/-- C4 witness: a concrete preview channel with a non-zero target date; the
content request target carries the path and the `targetDate` parameter. -/
theorem preview_channel_requests_witness :
    (PreviewChannel.mk ⟨{}, "aSpace", ⟨false, "2020-04-09T22:00:00Z"⟩⟩
        "foo" "key" "live").contentRequestTarget { PublicID := "pid" }
      = .ok
        "/space/aSpace/preview/live/content/foo?publicId=pid&targetDate=2020-04-09T22%3A00%3A00Z" := by
  have h := (preview_channel_requests {} "aSpace" "foo" "live" "key"
    ⟨false, "2020-04-09T22:00:00Z"⟩ { PublicID := "pid" } {}
    (by decide) (by decide) (by decide) (fun _ => by decide)).2.2.1
  refine h.trans (congrArg Except.ok ?_)
  decide

end ContentChef
